import Mathlib

/-!
Verification of the CT-scan batch data model of `preprocessing/ct_batch.py`
(class `CTImagesBatch`): the stacked-volume store ("skyscraper"), the
parallel rebuild framework (`_init_rebuild` / `_post_rebuild` /
`_post_default`), per-item metadata recomputation (`rescale`, the
unify-spacing origin/spacing update), point-wise HU normalization
(`normalize_hu`), item views (`get_image` / `_get_verified_pos`), flipping,
and patch extraction / reassembly (`get_patches` / `load_from_patches`).

Arrays of floats are embedded as (lists of) rationals; a 3-d array is a
list of z-slices, each slice a list of rows of rationals.  Operations that
in the source mutate `self` are embedded as functions from the store to a
new store; raising an exception is embedded as an `Except` / error-flag
result.

Helper kernels imported by `ct_batch.py` from sibling modules that are not
part of the given sources (`.patches`, `.flip`, `.resize`,
`.dataset_import`) are modelled from the spec; each such definition carries
a doc comment saying so.
-/

/-- Per-item 3-vector over axes (z, y, x), holding rational values
(embedding the float triples used for `origin`, `spacing` and shapes). -/
structure Vec3 where
  z : ℚ
  y : ℚ
  x : ℚ
deriving DecidableEq

/-- Componentwise addition of axis vectors. -/
def vadd (a b : Vec3) : Vec3 := ⟨a.z + b.z, a.y + b.y, a.x + b.x⟩

/-- Componentwise subtraction of axis vectors. -/
def vsub (a b : Vec3) : Vec3 := ⟨a.z - b.z, a.y - b.y, a.x - b.x⟩

/-- Componentwise multiplication of axis vectors. -/
def vmul (a b : Vec3) : Vec3 := ⟨a.z * b.z, a.y * b.y, a.x * b.x⟩

/-- Componentwise division of axis vectors. -/
def vdiv (a b : Vec3) : Vec3 := ⟨a.z / b.z, a.y / b.y, a.x / b.x⟩

/-- Map a scalar function over the three components. -/
def vmap (f : ℚ → ℚ) (a : Vec3) : Vec3 := ⟨f a.z, f a.y, f a.x⟩

/-- The triple (n, m, k) of naturals seen as a rational axis vector. -/
def natVec (t : ℕ × ℕ × ℕ) : Vec3 := ⟨(t.1 : ℚ), (t.2.1 : ℚ), (t.2.2 : ℚ)⟩

/-- Round to the nearest integer, ties to even: the embedding of
`numpy.rint` used by `_post_rebuild` for `shape_after_resize`. -/
def rint (q : ℚ) : ℚ :=
  let n := ⌊q⌋
  let f := q - (n : ℚ)
  if f < 1/2 then (n : ℚ)
  else if 1/2 < f then ((n + 1 : ℤ) : ℚ)
  else if n % 2 = 0 then (n : ℚ) else ((n + 1 : ℤ) : ℚ)

/-- Floor division by two on rationals: the embedding of the numpy
floor-division `overshoot // 2` on float arrays. -/
def floorDiv2 (q : ℚ) : ℚ := (⌊q / 2⌋ : ℚ)

/-- One z-slice of the skyscraper: a 2-d array of rational voxel values. -/
abbrev Slice := List (List ℚ)

/-- The batch state of `CTImagesBatch`: `data` is `self._data` (the
skyscraper, a list of z-slices), `bounds` is `self._bounds`, `origin` and
`spacing` the per-item metadata arrays, `index` the ordered item
identifiers, and `cropCenters` / `cropSizes` the lazily cached crop
descriptors `self._crop_centers` / `self._crop_sizes` (flattened to lists
of integers). -/
structure Store where
  data : List Slice
  bounds : List ℕ
  origin : List Vec3
  spacing : List Vec3
  index : List String
  cropCenters : List ℤ
  cropSizes : List ℤ
deriving DecidableEq

/-- The error taxonomy of the spec for failures surfaced by the batch
operations (the source raises `IndexError` / `KeyError` / `TypeError` /
`ValueError`; the spec names them as below). -/
inductive Err where
  | indexOutOfRange
  | unknownIdentifier
  | unsupportedFormat
  | parallelTaskFailure
deriving DecidableEq

/-- Cumulative sums with a leading zero: the embedding of
`np.cumsum(np.array([len(a) for a in [[]] + list_of_arrs]))` used by the
gatherers to recompute `bounds`. -/
def cumsum (ls : List ℕ) : List ℕ := List.scanl (· + ·) 0 ls

/-- Per-item z-extents `upper_bounds - lower_bounds`, i.e. adjacent
differences of `bounds`. -/
def deltas (bounds : List ℕ) : List ℕ :=
  List.zipWith (fun a b => b - a) bounds bounds.tail

/-- Cut the skyscraper into its per-item sub-arrays: item i is
`data[bounds[i] : bounds[i+1]]` (the views built from `bounds`, as in
`_init_rebuild` and `get_image`). -/
def itemsOf (data : List Slice) : List ℕ → List (List Slice)
  | a :: b :: rest => ((data.take b).drop a) :: itemsOf data (b :: rest)
  | _ => []

/-- The in-plane (y, x) extents `self._data.shape[1:]`, read off the first
slice (the source assumes all slices share them). -/
def sliceShape (data : List Slice) : ℕ × ℕ :=
  ((data.headD []).length, ((data.headD []).headD []).length)

/-- The `shape` property: per item, `(bounds[i+1]-bounds[i], y, x)` with
(y, x) the shared slice shape, as a rational axis vector. -/
def shapeVecs (s : Store) : List Vec3 :=
  (deltas s.bounds).map fun dz =>
    ⟨(dz : ℚ), ((sliceShape s.data).1 : ℚ), ((sliceShape s.data).2 : ℚ)⟩

/-- The `rescale` method: `(self.spacing * self.shape) / new_shape`
per item. -/
def rescale (s : Store) (newShape : ℕ × ℕ × ℕ) : List Vec3 :=
  List.zipWith (fun sp shv => vdiv (vmul sp shv) (natVec newShape))
    s.spacing (shapeVecs s)

/-- The `_init_data` replacement path: wholesale assignment of `_data`,
`_bounds`, `origin`, `spacing`.  Mirroring the source body, the cached
crop descriptors are NOT touched (even though the source docstring says
this method initializes `_crop_centers` and `_crop_sizes`).  A `none`
bounds becomes the empty array, a `none` origin the zero array and a
`none` spacing the ones array, as in the source.  (The source would also
accept `source=None`; every call site relevant to the claims passes an
array, so `source` is taken here as a required array.) -/
def initData (s : Store) (source : List Slice) (bounds : Option (List ℕ))
    (origin : Option (List Vec3)) (spacing : Option (List Vec3)) : Store :=
  { s with
    data := source
    bounds := bounds.getD []
    origin := origin.getD (List.replicate s.index.length ⟨0, 0, 0⟩)
    spacing := spacing.getD (List.replicate s.index.length ⟨1, 1, 1⟩) }

/-- The lazy `crop_centers` property: if the cache is empty, recompute
(via `_crop_params_patients`, whose kernel `return_black_border_array` is
not under the given sources, so the recomputation is a parameter here);
otherwise return the cached value.  (On a non-empty numpy cache the
source's `if not self._crop_centers` in fact raises a `ValueError` for
arrays of more than one element; what it never does is recompute.) -/
def cropCentersGet (s : Store) (recompute : Store → List ℤ) : List ℤ :=
  if s.cropCenters = [] then recompute s else s.cropCenters

/-- Modelled from the spec: the dataset framework's `index.get_pos`
(imported via `.dataset_import`, not under the given sources) maps an item
identifier to its position and fails when the identifier is unknown. -/
def getPos (index : List String) (name : String) : Option ℕ :=
  match index with
  | [] => none
  | a :: rest => if a = name then some 0 else (getPos rest name).map (· + 1)

/-- The `_get_verified_pos` method: an integer index must satisfy
`0 <= index < len(self)`, otherwise `IndexError`; a string identifier is
looked up in the index, an unknown one fails. -/
def getVerifiedPos (s : Store) (idx : Sum ℤ String) : Except Err ℕ :=
  match idx with
  | Sum.inl i =>
      if 0 ≤ i ∧ i < (s.index.length : ℤ) then Except.ok i.toNat
      else Except.error Err.indexOutOfRange
  | Sum.inr name =>
      match getPos s.index name with
      | some p => Except.ok p
      | none => Except.error Err.unknownIdentifier

/-- The `get_image` method: the view
`self._data[self.lower_bounds[pos] : self.upper_bounds[pos], :, :]`.
Since `lower_bounds = bounds[:-1]` and `upper_bounds = bounds[1:]`,
`lower_bounds[pos] = bounds[pos]` and `upper_bounds[pos] = bounds[pos+1]`. -/
def getImage (s : Store) (idx : Sum ℤ String) : Except Err (List Slice) :=
  (getVerifiedPos s idx).map fun pos =>
    (s.data.take (s.bounds.getD (pos + 1) 0)).drop (s.bounds.getD pos 0)

/-- One voxel of `normalize_hu`: shift-scale by `(v - min_hu)/(max_hu -
min_hu)`, clip above 1 then below 0, scale by 255 (the source's order of
the two clip assignments). -/
def normalizeVal (minHu maxHu v : ℚ) : ℚ :=
  let t := (v - minHu) / (maxHu - minHu)
  let t1 := if 1 < t then 1 else t
  let t2 := if t1 < 0 then 0 else t1
  t2 * 255

/-- The `normalize_hu` action: `normalizeVal` applied element-wise to the
whole buffer; `bounds`, metadata and caches are untouched. -/
def normalizeHu (s : Store) (minHu maxHu : ℚ) : Store :=
  { s with data := s.data.map (List.map (List.map (normalizeVal minHu maxHu))) }

/-- Validity of a store's bounds bookkeeping (the data-model invariant of
the spec): `bounds` has one entry per item plus one, starts at 0, is
monotone, and ends at the buffer's z-extent. -/
def validStore (s : Store) : Prop :=
  s.bounds.length = s.index.length + 1 ∧
  s.bounds.head? = some 0 ∧
  s.bounds.getLast? = some s.data.length ∧
  List.Sorted (· ≤ ·) s.bounds

instance (s : Store) : Decidable (validStore s) := by
  unfold validStore; infer_instance

/-- The keyword arguments threaded through the rebuild framework:
`resize` passes `shape`, `unify_spacing` passes `shape` and `spacing`,
`flip` passes neither (`_init_rebuild` / `_post_rebuild` branch on their
presence). -/
structure RebuildArgs where
  shape : Option (ℕ × ℕ × ℕ)
  spacing : Option Vec3
deriving DecidableEq

/-- The per-item metadata recomputation of `_post_rebuild` on the
unify-spacing path (lines computing `shape_after_resize`, `overshoot`,
`new_spacing`, `new_origin`): the shape an item of shape `sh` and spacing
`sp` would have at target spacing `tsp`. -/
def shapeAfterResize (sh sp tsp : Vec3) : Vec3 :=
  vmap rint (vdiv (vmul sh sp) tsp)

/-- The crop/pad overshoot of the resampled shape against the batch-wide
target shape `tsh`. -/
def overshootOf (sh sp tsp tsh : Vec3) : Vec3 :=
  vsub (shapeAfterResize sh sp tsp) tsh

/-- The combined `(new_origin, new_spacing)` recomputation of
`_post_rebuild` for `unify_spacing`: `new_spacing` by the rescale formula
against `shape_after_resize`, and the origin shifted by
`new_spacing * (overshoot // 2)`. -/
def unifyMeta (sh sp org tsp tsh : Vec3) : Vec3 × Vec3 :=
  let nsp := vdiv (vmul sp sh) (shapeAfterResize sh sp tsp)
  (vadd org (vmul nsp (vmap floorDiv2 (overshootOf sh sp tsp tsh))), nsp)

/-- The successful path of the rebuild framework
(`_init_rebuild` + workers + `_post_rebuild`, with `new_batch=False`):
each item view is handed to the worker `f`, whose outputs land in their
disjoint destination slices of the shared buffer (functionally: their
concatenation); `bounds` is recomputed as the cumulative sum of the output
z-extents; `spacing` is rescaled when a `shape` keyword is present;
`origin` and `spacing` are recomputed by `unifyMeta` when a `spacing`
keyword is present, and reused verbatim otherwise. -/
def rebuild (s : Store) (f : List Slice → List Slice) (args : RebuildArgs) : Store :=
  let outs := (itemsOf s.data s.bounds).map f
  let newData := outs.flatten
  let newBounds := cumsum (outs.map List.length)
  let spacingA := match args.shape with
    | some sh => rescale s sh
    | none => s.spacing
  let metaB : List Vec3 × List Vec3 := match args.spacing with
    | some tsp =>
        let tsh := natVec (args.shape.getD (0, 0, 0))
        let triples := List.zipWith
          (fun shv pr => unifyMeta shv pr.1 pr.2 tsp tsh)
          (shapeVecs s) (List.zip s.spacing s.origin)
        (triples.map Prod.fst, triples.map Prod.snd)
    | none => (s.origin, spacingA)
  { s with data := newData, bounds := newBounds,
           origin := metaB.1, spacing := metaB.2 }

/-- The destination ranges built by `_init_rebuild`: with a `shape`
keyword, item i writes rows `[num_slices*i, num_slices*(i+1))` of the
fresh buffer; without one, rows `[bounds[i], bounds[i+1])`. -/
def initRebuildRanges (s : Store) (shape : Option (ℕ × ℕ × ℕ)) : List (ℕ × ℕ) :=
  match shape with
  | some t => (List.range s.index.length).map fun i => (t.1 * i, t.1 * (i + 1))
  | none => (List.range s.index.length).map fun i =>
      (s.bounds.getD i 0, s.bounds.getD (i + 1) 0)

/-- Modelled from the spec: `flip_patient_numba` (imported from `.flip`,
not under the given sources) reverses the slice order along axis 0 within
one item. -/
def flipPatient (it : List Slice) : List Slice := it.reverse

/-- The `flip` action: a rebuild with neither `shape` nor `spacing`. -/
def flipBatch (s : Store) : Store := rebuild s flipPatient ⟨none, none⟩

/-- Modelled from the spec: `any_action_failed` (imported from
`.dataset_import`, not under the given sources) reports whether any
per-item task raised. -/
def anyActionFailed {α : Type} (outs : List (Except String α)) : Bool :=
  outs.any fun o => match o with
    | Except.error _ => true
    | Except.ok _ => false

/-- A whole rebuild-flavor parallel operation with possibly-failing
per-item tasks: when any task failed, `_post_rebuild` raises before
touching the store (the fresh shared buffer is discarded), so the result
is the unchanged store together with the failure; otherwise the rebuild
result. -/
def runRebuild (s : Store) (f : List Slice → Except String (List Slice))
    (args : RebuildArgs) : Store × Option Err :=
  if anyActionFailed ((itemsOf s.data s.bounds).map f) then
    (s, some Err.parallelTaskFailure)
  else
    (rebuild s (fun it => ((f it).toOption.getD [])) args, none)

/-- A whole accumulate-flavor parallel operation (the `_post_default`
gatherer with `update=True`, `new_batch=False`, as used by the dicom
load): per-index tasks; when any failed, the gatherer raises before
concatenating, so the store is unchanged; otherwise the results are
concatenated in item order, `bounds` recomputed as their cumulative
lengths, and `origin` / `spacing` passed through. -/
def runAccumulate (s : Store) (f : String → Except String (List Slice)) :
    Store × Option Err :=
  let outs := s.index.map f
  if anyActionFailed outs then
    (s, some Err.parallelTaskFailure)
  else
    let arrs := outs.map fun o => (o.toOption.getD [])
    ({ s with data := arrs.flatten, bounds := cumsum (arrs.map List.length) }, none)

/-- Modelled from the spec: `calc_padding_size` (imported from `.patches`,
not under the given sources) — the total padding along one axis of extent
`n` for patch extent `p` and stride `s` is the smallest non-negative
amount making an integral number of windows fit exactly, i.e. making
`(padded - p) % s == 0` with `padded >= p`. -/
def padTotal (n p s : ℕ) : ℕ :=
  if p ≤ n then (s - (n - p) % s) % s else p - n

/-- The padding applied before the data along an axis (the remainder goes
after), as split by `calc_padding_size`. -/
def padBefore (n p s : ℕ) : ℕ := padTotal n p s / 2

/-- The padded axis extent `data_padded.shape`. -/
def paddedLen (n p s : ℕ) : ℕ := n + padTotal n p s

/-- The number of sliding windows along one axis:
`(padded - patch) // stride + 1` (the `num_sections` of `get_patches`). -/
def nsec (n p s : ℕ) : ℕ := (paddedLen n p s - p) / s + 1

/-- Edge-mode padding index map: position `i` of the padded axis reads
source position `clip(i - before, 0, n-1)` (`np.pad(..., mode='edge')`).
In truncated ℕ-arithmetic `i - before` is already clipped below at 0. -/
def clampEdge (n b i : ℕ) : ℕ := min (n - 1) (i - b)

/-- One item volume: its axis extents and the voxel values (total as a
function; only indices below the extents are meaningful). -/
structure Vol where
  nz : ℕ
  ny : ℕ
  nx : ℕ
  val : ℕ → ℕ → ℕ → ℚ

/-- The edge-padded volume `data_padded` built by `get_patches`. -/
def paddedVal (V : Vol) (pz py px sz sy sx : ℕ) (i j k : ℕ) : ℚ :=
  V.val (clampEdge V.nz (padBefore V.nz pz sz) i)
        (clampEdge V.ny (padBefore V.ny py sy) j)
        (clampEdge V.nx (padBefore V.nx px sx) k)

/-- `get_patches` for one item (modelled from the spec for the kernel
`put_patches_numba`, not under the given sources): the patch tensor, whose
window `(wz, wy, wx)` holds at offset `(oz, oy, ox)` the padded volume at
`window * stride + offset`.  Windows range over `nsec` per axis and
offsets below the patch shape; the function is total on indices as the
embedding of the array. -/
def getPatches (V : Vol) (pz py px sz sy sx : ℕ)
    (wz wy wx oz oy ox : ℕ) : ℚ :=
  paddedVal V pz py px sz sy sx (wz * sz + oz) (wy * sy + oy) (wx * sx + ox)

/-- The windows that cover padded position `q` along an axis: those
`w < nsec` with `w*s ≤ q < w*s + p`. -/
def covSet (n p s q : ℕ) : Finset ℕ :=
  (Finset.range (nsec n p s)).filter fun w => w * s ≤ q ∧ q < w * s + p

/-- `assemble_patches` for one item (modelled from the spec: overlapping
window contributions are combined by accumulating a sum and a count per
voxel and dividing): the value of the assembled padded-size array at
`(i, j, k)`. -/
def assembleFromPatches (nz ny nx pz py px sz sy sx : ℕ)
    (patches : ℕ → ℕ → ℕ → ℕ → ℕ → ℕ → ℚ) (i j k : ℕ) : ℚ :=
  let A := covSet nz pz sz i
  let B := covSet ny py sy j
  let C := covSet nx px sx k
  (A.sum fun wz => B.sum fun wy => C.sum fun wx =>
      patches wz wy wx (i - wz * sz) (j - wy * sy) (k - wx * sx)) /
    ((A.card * B.card * C.card : ℕ) : ℚ)

/-- `load_from_patches` for one item: assemble into the padded-size array
(whose extents are re-derived from the scan shape, patch shape and stride
by the same `calc_padding_size` formula) and crop the inferred padding
away, keeping rows `before ≤ index < padded - after` per axis. -/
def loadFromPatches (nz ny nx pz py px sz sy sx : ℕ)
    (patches : ℕ → ℕ → ℕ → ℕ → ℕ → ℕ → ℚ) (i j k : ℕ) : ℚ :=
  assembleFromPatches nz ny nx pz py px sz sy sx patches
    (i + padBefore nz pz sz) (j + padBefore ny py sy) (k + padBefore nx px sx)

/-- A minimal one-item batch used as a concrete witness input. -/
def sampleStore : Store :=
  { data := [[[5]]]
    bounds := [0, 1]
    origin := [⟨0, 0, 0⟩]
    spacing := [⟨1, 1, 1⟩]
    index := ["p0"]
    cropCenters := []
    cropSizes := [] }

/-- A one-item batch with a non-empty cached crop descriptor, for the
cache-invalidation claim. -/
def sampleC8Store : Store :=
  { data := [[[5]]]
    bounds := [0, 1]
    origin := [⟨0, 0, 0⟩]
    spacing := [⟨1, 1, 1⟩]
    index := ["p0"]
    cropCenters := [7]
    cropSizes := [7] }

/-- A stand-in recomputation of crop centers that visibly depends on the
current data (the real kernel is not under the given sources): here, the
buffer's z-extent. -/
def lengthCenters (st : Store) : List ℤ := [(st.data.length : ℤ)]

/-- Every output voxel of `normalize_hu` lies in [0, 255]. -/
theorem normalizeVal_mem (a b v : ℚ) :
    0 ≤ normalizeVal a b v ∧ normalizeVal a b v ≤ 255 := by
  simp only [normalizeVal]
  split_ifs with h1 h2 h3
  · exact ⟨by norm_num, by norm_num⟩
  · exact ⟨by norm_num, by norm_num⟩
  · exact ⟨by norm_num, by norm_num⟩
  · have h4 : (v - a) / (b - a) ≤ 1 := le_of_not_lt h1
    have h5 : 0 ≤ (v - a) / (b - a) := le_of_not_lt h3
    exact ⟨by positivity, by nlinarith⟩

/-- A second `normalize_hu` pass with bounds 0 and 255 is the identity on
values already in [0, 255]: clipping saturates. -/
theorem normalizeVal_id (y : ℚ) (h0 : 0 ≤ y) (h255 : y ≤ 255) :
    normalizeVal 0 255 y = y := by
  have h1 : ¬ (1 < (y - 0) / (255 - 0)) := by
    rw [not_lt, sub_zero, sub_zero, div_le_one (by norm_num : (0:ℚ) < 255)]
    exact h255
  have h2 : ¬ ((y - 0) / (255 - 0) < 0) := by
    rw [not_lt, sub_zero, sub_zero]
    positivity
  simp only [normalizeVal, h1, h2, if_false]
  rw [sub_zero, sub_zero, div_mul_cancel₀ y (by norm_num : (255:ℚ) ≠ 0)]

/-- C7: `normalize_hu(min_hu, max_hu)` followed by
`normalize_hu(min_hu=0, max_hu=255)` equals the first application alone:
every value already lies in [0, 255], so the second pass saturates to the
identity rather than compounding. -/
theorem C7_normalize_hu_idempotent (s : Store) (minHu maxHu : ℚ)
    (h : minHu < maxHu) :
    normalizeHu (normalizeHu s minHu maxHu) 0 255 = normalizeHu s minHu maxHu := by
  have h1 : (normalizeVal 0 255) ∘ (normalizeVal minHu maxHu) =
      normalizeVal minHu maxHu :=
    funext fun v =>
      normalizeVal_id _ (normalizeVal_mem minHu maxHu v).1
        (normalizeVal_mem minHu maxHu v).2
  have h2 : (List.map (normalizeVal 0 255)) ∘ (List.map (normalizeVal minHu maxHu)) =
      List.map (normalizeVal minHu maxHu) := by
    funext l
    show List.map _ (List.map _ l) = _
    rw [List.map_map, h1]
  have h3 : (List.map (List.map (normalizeVal 0 255))) ∘
      (List.map (List.map (normalizeVal minHu maxHu))) =
      List.map (List.map (normalizeVal minHu maxHu)) := by
    funext sl
    show List.map _ (List.map _ sl) = _
    rw [List.map_map, h2]
  simp only [normalizeHu]
  congr 1
  rw [List.map_map, h3]

/-- C7 witness at a concrete batch and the default HU window. -/
theorem C7_normalize_hu_idempotent_witness :
    ((-1000 : ℚ) < 400) ∧
    normalizeHu (normalizeHu sampleStore (-1000) 400) 0 255 =
      normalizeHu sampleStore (-1000) 400 :=
  ⟨by norm_num, C7_normalize_hu_idempotent sampleStore (-1000) 400 (by norm_num)⟩

/-- C10: under min_hu < max_hu, `normalize_hu` is total (the embedding is
a total function) and every element of the resulting buffer lies in the
closed interval [0, 255]. -/
theorem C10_normalize_hu_range (s : Store) (minHu maxHu : ℚ)
    (h : minHu < maxHu) :
    ∀ sl ∈ (normalizeHu s minHu maxHu).data, ∀ row ∈ sl, ∀ v ∈ row,
      0 ≤ v ∧ v ≤ 255 := by
  intro sl hsl row hrow v hv
  simp only [normalizeHu, List.mem_map] at hsl
  obtain ⟨sl0, _, rfl⟩ := hsl
  simp only [List.mem_map] at hrow
  obtain ⟨row0, _, rfl⟩ := hrow
  simp only [List.mem_map] at hv
  obtain ⟨v0, _, rfl⟩ := hv
  exact normalizeVal_mem minHu maxHu v0

/-- C10 witness at a concrete batch and the default HU window. -/
theorem C10_normalize_hu_range_witness :
    ((-1000 : ℚ) < 400) ∧
    (∀ sl ∈ (normalizeHu sampleStore (-1000) 400).data, ∀ row ∈ sl,
      ∀ v ∈ row, 0 ≤ v ∧ v ≤ 255) :=
  ⟨by norm_num, C10_normalize_hu_range sampleStore (-1000) 400 (by norm_num)⟩

/-- Rounding ties-to-even fixes integers. -/
theorem rint_intCast (n : ℤ) : rint ((n : ℚ)) = (n : ℚ) := by
  simp only [rint, Int.floor_intCast, sub_self]
  norm_num

/-- C3: `_post_rebuild` on the unify-spacing path sets
`new_spacing = old_spacing * old_shape / shape_after_resize` with
`shape_after_resize = rint(old_shape * old_spacing / target_spacing)`,
and `new_origin = old_origin + new_spacing * (overshoot // 2)` with
`overshoot = shape_after_resize - target_shape`; in the concrete instance
`old_spacing=(1,1,1)`, `old_shape=(10,10,10)`, `target_spacing=(2,1,1)`,
`target_shape=(5,10,10)` the overshoot is zero on every axis, the origin
is unchanged and the new spacing is (2,1,1). -/
theorem C3_unify_spacing_metadata :
    (∀ sh sp org tsp tsh : Vec3,
        (unifyMeta sh sp org tsp tsh).2 =
          vdiv (vmul sp sh) (shapeAfterResize sh sp tsp) ∧
        (unifyMeta sh sp org tsp tsh).1 =
          vadd org (vmul (vdiv (vmul sp sh) (shapeAfterResize sh sp tsp))
            (vmap floorDiv2 (overshootOf sh sp tsp tsh)))) ∧
    (∀ org : Vec3,
        overshootOf ⟨10, 10, 10⟩ ⟨1, 1, 1⟩ ⟨2, 1, 1⟩ ⟨5, 10, 10⟩ = ⟨0, 0, 0⟩ ∧
        (unifyMeta ⟨10, 10, 10⟩ ⟨1, 1, 1⟩ org ⟨2, 1, 1⟩ ⟨5, 10, 10⟩).1 = org ∧
        (unifyMeta ⟨10, 10, 10⟩ ⟨1, 1, 1⟩ org ⟨2, 1, 1⟩ ⟨5, 10, 10⟩).2 =
          ⟨2, 1, 1⟩) := by
  constructor
  · intro sh sp org tsp tsh
    exact ⟨rfl, rfl⟩
  · intro org
    have h5 : rint (5 : ℚ) = 5 := by
      have h := rint_intCast 5
      exact_mod_cast h
    have h10 : rint (10 : ℚ) = 10 := by
      have h := rint_intCast 10
      exact_mod_cast h
    have hsar : shapeAfterResize ⟨10, 10, 10⟩ ⟨1, 1, 1⟩ ⟨2, 1, 1⟩ =
        ⟨5, 10, 10⟩ := by
      simp only [shapeAfterResize, vmap, vdiv, vmul]
      have e1 : (10 : ℚ) * 1 / 2 = 5 := by norm_num
      have e2 : (10 : ℚ) * 1 / 1 = 10 := by norm_num
      rw [e1, e2, h5, h10]
    have hov0 : overshootOf ⟨10, 10, 10⟩ ⟨1, 1, 1⟩ ⟨2, 1, 1⟩ ⟨5, 10, 10⟩ =
        ⟨0, 0, 0⟩ := by
      simp only [overshootOf, hsar, vsub]
      norm_num [Vec3.mk.injEq]
    have hnsp : (unifyMeta ⟨10, 10, 10⟩ ⟨1, 1, 1⟩ org ⟨2, 1, 1⟩ ⟨5, 10, 10⟩).2 =
        ⟨2, 1, 1⟩ := by
      show vdiv (vmul ⟨1, 1, 1⟩ ⟨10, 10, 10⟩)
          (shapeAfterResize ⟨10, 10, 10⟩ ⟨1, 1, 1⟩ ⟨2, 1, 1⟩) = ⟨2, 1, 1⟩
      rw [hsar]
      simp only [vdiv, vmul]
      norm_num [Vec3.mk.injEq]
    refine ⟨hov0, ?_, hnsp⟩
    have hf0 : vmap floorDiv2 (⟨0, 0, 0⟩ : Vec3) = ⟨0, 0, 0⟩ := by
      simp [vmap, floorDiv2]
    have hm0 : ∀ a : Vec3, vmul a ⟨0, 0, 0⟩ = ⟨0, 0, 0⟩ := by
      intro a
      simp [vmul]
    show vadd org (vmul (vdiv (vmul ⟨1, 1, 1⟩ ⟨10, 10, 10⟩)
        (shapeAfterResize ⟨10, 10, 10⟩ ⟨1, 1, 1⟩ ⟨2, 1, 1⟩))
        (vmap floorDiv2
          (overshootOf ⟨10, 10, 10⟩ ⟨1, 1, 1⟩ ⟨2, 1, 1⟩ ⟨5, 10, 10⟩))) = org
    rw [hov0, hf0, hm0]
    obtain ⟨z, y, x⟩ := org
    simp [vadd]

/-- C9: a rebuild invoked with neither a `shape` nor a `spacing` keyword
(as `flip` does) reuses the pre-existing `origin` and `spacing` verbatim
and leaves the `index` untouched; only the buffer is rewritten. -/
theorem C9_flip_frame (s : Store) (f : List Slice → List Slice) :
    (rebuild s f ⟨none, none⟩).origin = s.origin ∧
    (rebuild s f ⟨none, none⟩).spacing = s.spacing ∧
    (rebuild s f ⟨none, none⟩).index = s.index ∧
    (flipBatch s).origin = s.origin ∧
    (flipBatch s).spacing = s.spacing ∧
    (flipBatch s).index = s.index :=
  ⟨rfl, rfl, rfl, rfl, rfl, rfl⟩

/-- C2: if any per-item task of a parallelized operation raises, the
gatherer (`_post_rebuild` for the rebuild flavor, `_post_default` for the
accumulate flavor) fails the whole operation with the parallel-failure
error before any reassembly, so no partial result is returned and the
store (buffer, bounds and metadata) is exactly what it was before the
call. -/
theorem C2_parallel_failure_atomicity (s : Store)
    (f : List Slice → Except String (List Slice)) (args : RebuildArgs)
    (g : String → Except String (List Slice)) :
    (anyActionFailed ((itemsOf s.data s.bounds).map f) = true →
      runRebuild s f args = (s, some Err.parallelTaskFailure)) ∧
    (anyActionFailed (s.index.map g) = true →
      runAccumulate s g = (s, some Err.parallelTaskFailure)) := by
  constructor
  · intro h
    simp [runRebuild, h]
  · intro h
    simp [runAccumulate, h]

/-- C2 witness: a one-item batch whose single task raises. -/
theorem C2_parallel_failure_atomicity_witness :
    (anyActionFailed ((itemsOf sampleStore.data sampleStore.bounds).map
        (fun _ => (Except.error ("boom") : Except String (List Slice)))) = true) ∧
    (anyActionFailed (sampleStore.index.map
        (fun _ => (Except.error ("boom") : Except String (List Slice)))) = true) ∧
    runRebuild sampleStore (fun _ => Except.error ("boom")) ⟨none, none⟩ =
      (sampleStore, some Err.parallelTaskFailure) ∧
    runAccumulate sampleStore (fun _ => Except.error ("boom")) =
      (sampleStore, some Err.parallelTaskFailure) :=
  ⟨by decide, by decide,
    (C2_parallel_failure_atomicity sampleStore
      (fun _ => Except.error ("boom")) ⟨none, none⟩
      (fun _ => Except.error ("boom"))).1 (by decide),
    (C2_parallel_failure_atomicity sampleStore
      (fun _ => Except.error ("boom")) ⟨none, none⟩
      (fun _ => Except.error ("boom"))).2 (by decide)⟩

/-- C8: the `_init_data` replacement path does NOT invalidate the cached
crop descriptors — at a concrete store whose cache holds `[7]`, replacing
the whole buffer leaves the cache at `[7]`, and a subsequent
`crop_centers` access returns the stale `[7]` instead of the value `[3]`
recomputed from the new data. -/
theorem C8_crop_cache_stale :
    cropCentersGet
        (initData sampleC8Store (List.replicate 3 [[0]]) (some [0, 3]) none none)
        lengthCenters = [7] ∧
    lengthCenters
        (initData sampleC8Store (List.replicate 3 [[0]]) (some [0, 3]) none none) =
      [3] ∧
    ([7] : List ℤ) ≠ [3] := by
  refine ⟨by decide, by decide, by decide⟩

/-- Unfolding of `itemsOf` on an empty bounds array. -/
theorem itemsOf_nil (data : List Slice) : itemsOf data [] = [] := rfl

/-- Unfolding of `itemsOf` on a one-entry bounds array. -/
theorem itemsOf_single (data : List Slice) (a : ℕ) : itemsOf data [a] = [] := rfl

/-- Unfolding of `itemsOf` on adjacent bound pairs. -/
theorem itemsOf_cons (data : List Slice) (a b : ℕ) (rest : List ℕ) :
    itemsOf data (a :: b :: rest) =
      ((data.take b).drop a) :: itemsOf data (b :: rest) := rfl

/-- The two-item store of the concrete resize scenario: item 0 of shape
(4,8,8), item 1 of shape (6,8,8), bounds [0,4,10]. -/
def c4Store (d : List Slice) (or0 or1 sp0 sp1 : Vec3) (cc cs : List ℤ) : Store :=
  { data := d
    bounds := [0, 4, 10]
    origin := [or0, or1]
    spacing := [sp0, sp1]
    index := ["p0", "p1"]
    cropCenters := cc
    cropSizes := cs }

/-- C4: on the two-item store with shapes (4,8,8) and (6,8,8) and
`bounds=[0,4,10]`, a resize rebuild toward shape (5,8,8) hands the workers
the destination ranges [0,5) and [5,10) of the shared buffer — pairwise
disjoint and together covering all 10 rows — and yields `bounds=[0,5,10]`
and per-item spacing rescaled by `spacing * old_shape / new_shape`. -/
theorem C4_resize_scenario (d : List Slice) (or0 or1 sp0 sp1 : Vec3)
    (cc cs : List ℤ) (f : List Slice → List Slice)
    (hd : d.length = 10) (hsl : sliceShape d = (8, 8))
    (hf0 : (f (d.take 4)).length = 5)
    (hf1 : (f ((d.take 10).drop 4)).length = 5) :
    initRebuildRanges (c4Store d or0 or1 sp0 sp1 cc cs) (some (5, 8, 8)) =
      [(0, 5), (5, 10)] ∧
    (∀ r, r < 10 →
      ∃ pr ∈ initRebuildRanges (c4Store d or0 or1 sp0 sp1 cc cs)
          (some (5, 8, 8)), pr.1 ≤ r ∧ r < pr.2) ∧
    (∀ pr ∈ initRebuildRanges (c4Store d or0 or1 sp0 sp1 cc cs)
        (some (5, 8, 8)),
      ∀ qr ∈ initRebuildRanges (c4Store d or0 or1 sp0 sp1 cc cs)
          (some (5, 8, 8)),
        pr ≠ qr → pr.2 ≤ qr.1 ∨ qr.2 ≤ pr.1) ∧
    (rebuild (c4Store d or0 or1 sp0 sp1 cc cs) f
        ⟨some (5, 8, 8), none⟩).bounds = [0, 5, 10] ∧
    (rebuild (c4Store d or0 or1 sp0 sp1 cc cs) f
        ⟨some (5, 8, 8), none⟩).spacing =
      [vdiv (vmul sp0 ⟨4, 8, 8⟩) ⟨5, 8, 8⟩,
       vdiv (vmul sp1 ⟨6, 8, 8⟩) ⟨5, 8, 8⟩] := by
  have h1 : initRebuildRanges (c4Store d or0 or1 sp0 sp1 cc cs)
      (some (5, 8, 8)) = [(0, 5), (5, 10)] := rfl
  refine ⟨h1, ?_, ?_, ?_, ?_⟩
  · intro r hr
    rw [h1]
    rcases Nat.lt_or_ge r 5 with h | h
    · exact ⟨(0, 5), by simp, by omega⟩
    · exact ⟨(5, 10), by simp, by omega⟩
  · intro pr hpr qr hqr hne
    rw [h1] at hpr hqr
    simp only [List.mem_cons, List.not_mem_nil, or_false] at hpr hqr
    rcases hpr with rfl | rfl <;> rcases hqr with rfl | rfl <;>
      simp_all <;> omega
  · simp only [rebuild, c4Store, itemsOf_cons, itemsOf_single, List.drop_zero,
      List.map_cons, List.map_nil, hf0, hf1]
    rfl
  · simp only [rebuild, c4Store, rescale, shapeVecs, deltas, hsl]
    simp [natVec, Vec3.mk.injEq]

/-- The last entry of a list is a member. -/
theorem last_mem_of_getLast? {α : Type} :
    ∀ (l : List α) (a : α), l.getLast? = some a → a ∈ l
  | [], _, h => by simp at h
  | [b], a, h => by
      simp only [List.getLast?_singleton, Option.some.injEq] at h
      simp [h]
  | b :: c :: t, a, h => by
      rw [List.getLast?_cons_cons] at h
      exact List.mem_cons_of_mem _ (last_mem_of_getLast? (c :: t) a h)

/-- In a sorted list every element is at most the last one. -/
theorem sorted_le_getLast :
    ∀ (l : List ℕ) (t : ℕ), List.Sorted (· ≤ ·) l → l.getLast? = some t →
      ∀ x ∈ l, x ≤ t
  | [], _, _, hl => by simp at hl
  | [a], t, _, hl => by
      simp only [List.getLast?_singleton, Option.some.injEq] at hl
      intro x hx
      simp only [List.mem_singleton] at hx
      omega
  | a :: b :: rest, t, hs, hl => by
      rw [List.getLast?_cons_cons] at hl
      rw [List.sorted_cons] at hs
      intro x hx
      rcases List.mem_cons.mp hx with rfl | hx2
      · exact le_trans (hs.1 t (last_mem_of_getLast? _ _ hl)) (le_refl t)
      · exact sorted_le_getLast (b :: rest) t hs.2 hl x hx2

/-- An in-range `getD` access returns a member of the list. -/
theorem getD_mem_of_lt :
    ∀ (l : List ℕ) (i : ℕ), i < l.length → l.getD i 0 ∈ l
  | [], i, h => by simp at h
  | a :: rest, 0, _ => by
      rw [List.getD_cons_zero]
      exact List.mem_cons_self a rest
  | a :: rest, i + 1, h => by
      rw [List.getD_cons_succ]
      exact List.mem_cons_of_mem _
        (getD_mem_of_lt rest i (by simpa using h))

/-- `getD` accesses of a sorted list are monotone in the position. -/
theorem sorted_getD_mono :
    ∀ (l : List ℕ), List.Sorted (· ≤ ·) l → ∀ i j : ℕ, i ≤ j →
      j < l.length → l.getD i 0 ≤ l.getD j 0
  | [], _, i, j, _, hj => by simp at hj
  | a :: rest, _, 0, 0, _, _ => le_refl _
  | a :: rest, hs, 0, k + 1, _, hj => by
      rw [List.getD_cons_zero, List.getD_cons_succ]
      exact (List.sorted_cons.mp hs).1 _
        (getD_mem_of_lt rest k (by simpa using hj))
  | a :: rest, hs, m + 1, 0, hij, _ => absurd hij (by omega)
  | a :: rest, hs, m + 1, k + 1, hij, hj => by
      rw [List.getD_cons_succ, List.getD_cons_succ]
      exact sorted_getD_mono rest (List.sorted_cons.mp hs).2 m k (by omega)
        (by simpa using hj)

/-- An identifier absent from the index has no position. -/
theorem getPos_eq_none_of_not_mem :
    ∀ (index : List String) (name : String), name ∉ index →
      getPos index name = none
  | [], _, _ => rfl
  | a :: rest, name, h => by
      have h1 : ¬ (a = name) := fun e => h (by simp [e])
      have h2 : name ∉ rest := fun hm => h (List.mem_cons_of_mem _ hm)
      simp [getPos, h1, getPos_eq_none_of_not_mem rest name h2]

/-- C5: for a store with valid bounds, `get_image` at position
`i ∈ [0, N)` returns exactly the view `buffer[bounds[i] : bounds[i+1]]`,
of length `bounds[i+1] - bounds[i]`; a negative or too-large integer index
fails with the index-out-of-range error, and an identifier not in the
index fails with the unknown-identifier error. -/
theorem C5_item_view (s : Store) (hv : validStore s) :
    (∀ i : ℕ, i < s.index.length →
      getImage s (Sum.inl (i : ℤ)) =
        Except.ok ((s.data.take (s.bounds.getD (i + 1) 0)).drop
          (s.bounds.getD i 0)) ∧
      ((s.data.take (s.bounds.getD (i + 1) 0)).drop
          (s.bounds.getD i 0)).length =
        s.bounds.getD (i + 1) 0 - s.bounds.getD i 0) ∧
    (∀ i : ℤ, i < 0 ∨ (s.index.length : ℤ) ≤ i →
      getImage s (Sum.inl i) = Except.error Err.indexOutOfRange) ∧
    (∀ name : String, name ∉ s.index →
      getImage s (Sum.inr name) = Except.error Err.unknownIdentifier) := by
  obtain ⟨hlen, hhead, hlast, hsort⟩ := hv
  refine ⟨?_, ?_, ?_⟩
  · intro i hi
    have hcond : (0 : ℤ) ≤ (i : ℤ) ∧ (i : ℤ) < (s.index.length : ℤ) :=
      ⟨Int.natCast_nonneg i, by exact_mod_cast hi⟩
    have hgv : getVerifiedPos s (Sum.inl (i : ℤ)) = Except.ok i := by
      simp only [getVerifiedPos]
      rw [if_pos hcond]
      simp
    constructor
    · simp only [getImage, hgv, Except.map]
    · have hmem : s.bounds.getD (i + 1) 0 ∈ s.bounds :=
        getD_mem_of_lt s.bounds (i + 1) (by omega)
      have hb1 : s.bounds.getD (i + 1) 0 ≤ s.data.length :=
        sorted_le_getLast s.bounds s.data.length hsort hlast _ hmem
      rw [List.length_drop, List.length_take, min_eq_left hb1]
  · intro i hi
    have hcond : ¬ ((0 : ℤ) ≤ i ∧ i < (s.index.length : ℤ)) := by omega
    simp only [getImage, getVerifiedPos]
    rw [if_neg hcond]
    simp [Except.map]
  · intro name hn
    have hp : getPos s.index name = none :=
      getPos_eq_none_of_not_mem _ _ hn
    simp [getImage, getVerifiedPos, hp, Except.map]

/-- C5 witness at a concrete valid one-item store. -/
theorem C5_item_view_witness :
    validStore sampleStore ∧
    ((∀ i : ℕ, i < sampleStore.index.length →
      getImage sampleStore (Sum.inl (i : ℤ)) =
        Except.ok ((sampleStore.data.take (sampleStore.bounds.getD (i + 1) 0)).drop
          (sampleStore.bounds.getD i 0)) ∧
      ((sampleStore.data.take (sampleStore.bounds.getD (i + 1) 0)).drop
          (sampleStore.bounds.getD i 0)).length =
        sampleStore.bounds.getD (i + 1) 0 - sampleStore.bounds.getD i 0) ∧
    (∀ i : ℤ, i < 0 ∨ (sampleStore.index.length : ℤ) ≤ i →
      getImage sampleStore (Sum.inl i) = Except.error Err.indexOutOfRange) ∧
    (∀ name : String, name ∉ sampleStore.index →
      getImage sampleStore (Sum.inr name) = Except.error Err.unknownIdentifier)) :=
  ⟨by decide, C5_item_view sampleStore (by decide)⟩

/-- `scanl` always starts with its seed. -/
theorem scanl_head {α β : Type} (f : β → α → β) (b : β) (l : List α) :
    ∃ t, List.scanl f b l = b :: t := by
  cases l with
  | nil => exact ⟨[], by simp [List.scanl_nil]⟩
  | cons x xs => exact ⟨List.scanl f (f b x) xs, by simp [List.scanl_cons]⟩

/-- Cutting a concatenation of items at the cumulative bounds (seeded
after a prefix of length `a`) returns exactly the items. -/
theorem itemsOf_scanl :
    ∀ (L : List (List Slice)) (P : List Slice) (a : ℕ), P.length = a →
      itemsOf (P ++ L.flatten) (List.scanl (· + ·) a (L.map List.length)) = L
  | [], P, a, _ => by
      simp [List.scanl_nil, itemsOf_single]
  | x :: L, P, a, ha => by
      rw [List.map_cons, List.scanl_cons]
      obtain ⟨t, ht⟩ := scanl_head (· + ·) (a + x.length) (L.map List.length)
      rw [ht]
      simp only [List.singleton_append]
      rw [itemsOf_cons]
      rw [← ht]
      congr 1
      · rw [List.flatten_cons, ← List.append_assoc]
        rw [List.take_left' (by simp [ha])]
        exact List.drop_left' ha
      · rw [List.flatten_cons, ← List.append_assoc]
        exact itemsOf_scanl L (P ++ x) (a + x.length) (by simp [ha])

/-- Under sorted bounds ending at `m ≤ |data|`, the items concatenate
back to `data[a : m]`. -/
theorem flatten_itemsOf :
    ∀ (rest : List ℕ) (a m : ℕ) (data : List Slice),
      List.Sorted (· ≤ ·) (a :: rest) → (a :: rest).getLast? = some m →
      m ≤ data.length →
      (itemsOf data (a :: rest)).flatten = (data.take m).drop a
  | [], a, m, data, _, hl, _ => by
      simp only [List.getLast?_singleton, Option.some.injEq] at hl
      subst hl
      rw [itemsOf_single, List.flatten_nil]
      exact (List.drop_eq_nil_of_le
        (by rw [List.length_take]; exact min_le_left _ _)).symm
  | b :: rest, a, m, data, hs, hl, hm => by
      rw [List.getLast?_cons_cons] at hl
      have hs2 := List.sorted_cons.mp hs
      have hab : a ≤ b := hs2.1 b (List.mem_cons_self b rest)
      have hbm : b ≤ m :=
        sorted_le_getLast (b :: rest) m hs2.2 hl b (List.mem_cons_self b rest)
      rw [itemsOf_cons, List.flatten_cons]
      rw [flatten_itemsOf rest b m data hs2.2 hl hm]
      have h1 : List.take b (data.take m) = data.take b := by
        rw [List.take_take, inf_eq_left.mpr hbm]
      have hsplit : data.take m = data.take b ++ (data.take m).drop b := by
        conv_lhs => rw [← List.take_append_drop b (data.take m)]
        rw [h1]
      conv_rhs => rw [hsplit]
      rw [List.drop_append_eq_append_drop]
      have h2 : a - (data.take b).length = 0 := by
        rw [List.length_take]
        omega
      rw [h2, List.drop_zero]

/-- Under sorted bounds ending at `m ≤ |data|`, the item lengths scan
back to the bounds themselves. -/
theorem scanl_length_itemsOf :
    ∀ (rest : List ℕ) (a m : ℕ) (data : List Slice),
      List.Sorted (· ≤ ·) (a :: rest) → (a :: rest).getLast? = some m →
      m ≤ data.length →
      List.scanl (· + ·) a ((itemsOf data (a :: rest)).map List.length) =
        a :: rest
  | [], a, _, data, _, _, _ => by
      rw [itemsOf_single]
      simp [List.scanl_nil]
  | b :: rest, a, m, data, hs, hl, hm => by
      rw [List.getLast?_cons_cons] at hl
      have hs2 := List.sorted_cons.mp hs
      have hab : a ≤ b := hs2.1 b (List.mem_cons_self b rest)
      have hbm : b ≤ m :=
        sorted_le_getLast (b :: rest) m hs2.2 hl b (List.mem_cons_self b rest)
      rw [itemsOf_cons, List.map_cons, List.scanl_cons]
      have hlen : a + ((data.take b).drop a).length = b := by
        rw [List.length_drop, List.length_take]
        omega
      rw [hlen]
      rw [scanl_length_itemsOf rest b m data hs2.2 hl hm]
      simp [List.singleton_append]

/-- C6: flip reverses each item within its own bounds, leaves `bounds`
unchanged, and applying it twice reproduces the original buffer
bit-for-bit. -/
theorem C6_flip_involutive (s : Store) (hv : validStore s) :
    (flipBatch (flipBatch s)).data = s.data ∧
    (flipBatch s).bounds = s.bounds ∧
    itemsOf (flipBatch s).data (flipBatch s).bounds =
      (itemsOf s.data s.bounds).map List.reverse := by
  obtain ⟨hlen, hhead, hlast, hsort⟩ := hv
  obtain ⟨rest, hb⟩ : ∃ rest, s.bounds = 0 :: rest := by
    cases hbnd : s.bounds with
    | nil => rw [hbnd] at hhead; simp at hhead
    | cons a rest =>
        rw [hbnd] at hhead
        simp only [List.head?_cons, Option.some.injEq] at hhead
        exact ⟨rest, by rw [hhead]⟩
  have hfd : (flipBatch s).data =
      ((itemsOf s.data s.bounds).map flipPatient).flatten := rfl
  have hfb : (flipBatch s).bounds =
      List.scanl (· + ·) 0
        (((itemsOf s.data s.bounds).map flipPatient).map List.length) := rfl
  have hitems2 : itemsOf (flipBatch s).data (flipBatch s).bounds =
      (itemsOf s.data s.bounds).map flipPatient := by
    rw [hfd, hfb]
    have h := itemsOf_scanl ((itemsOf s.data s.bounds).map flipPatient) [] 0 rfl
    simpa using h
  have hsort0 : List.Sorted (· ≤ ·) (0 :: rest) := by rw [← hb]; exact hsort
  have hlast0 : (0 :: rest).getLast? = some s.data.length := by
    rw [← hb]; exact hlast
  have hlb : ((itemsOf s.data s.bounds).map flipPatient).map List.length =
      (itemsOf s.data s.bounds).map List.length := by
    rw [List.map_map]
    congr 1
    funext it
    simp [flipPatient]
  have hbounds : (flipBatch s).bounds = s.bounds := by
    rw [hfb, hlb, hb]
    exact scanl_length_itemsOf rest 0 s.data.length s.data hsort0 hlast0
      (le_refl _)
  have hitemsrev : itemsOf (flipBatch s).data (flipBatch s).bounds =
      (itemsOf s.data s.bounds).map List.reverse := by
    rw [hitems2]
    rfl
  refine ⟨?_, hbounds, hitemsrev⟩
  have hfd2 : (flipBatch (flipBatch s)).data =
      ((itemsOf (flipBatch s).data (flipBatch s).bounds).map
        flipPatient).flatten := rfl
  rw [hfd2, hitems2, List.map_map]
  have hrr : (flipPatient ∘ flipPatient) = id := by
    funext it
    simp [flipPatient]
  rw [hrr, List.map_id]
  rw [hb]
  rw [flatten_itemsOf rest 0 s.data.length s.data hsort0 hlast0 (le_refl _)]
  simp

/-- C6 witness at a concrete valid one-item store. -/
theorem C6_flip_involutive_witness :
    validStore sampleStore ∧
    ((flipBatch (flipBatch sampleStore)).data = sampleStore.data ∧
    (flipBatch sampleStore).bounds = sampleStore.bounds ∧
    itemsOf (flipBatch sampleStore).data (flipBatch sampleStore).bounds =
      (itemsOf sampleStore.data sampleStore.bounds).map List.reverse) :=
  ⟨by decide, C6_flip_involutive sampleStore (by decide)⟩

/-- The padded extent is at least the patch extent. -/
theorem le_paddedLen (n p s : ℕ) : p ≤ paddedLen n p s := by
  unfold paddedLen padTotal
  split_ifs with h
  · omega
  · omega

/-- The padding makes the window count integral: the stride divides
`padded - patch`. -/
theorem dvd_paddedLen_sub (n p s : ℕ) (hs : 0 < s) :
    s ∣ (paddedLen n p s - p) := by
  unfold paddedLen padTotal
  split_ifs with h
  · rcases Nat.eq_zero_or_pos ((n - p) % s) with h0 | hpos
    · rw [h0, Nat.sub_zero, Nat.mod_self]
      have hv := Nat.dvd_of_mod_eq_zero h0
      simpa using hv
    · have hlt : (n - p) % s < s := Nat.mod_lt _ hs
      have hmod : (s - (n - p) % s) % s = s - (n - p) % s :=
        Nat.mod_eq_of_lt (by omega)
      rw [hmod]
      obtain ⟨q, hq⟩ : ∃ q, s * q + (n - p) % s = n - p :=
        ⟨(n - p) / s, Nat.div_add_mod (n - p) s⟩
      have hq2 : s * (q + 1) = s * q + s := by ring
      exact ⟨q + 1, by omega⟩
  · have h0 : n + (p - n) - p = 0 := by omega
    rw [h0]
    exact dvd_zero s

/-- The padded extent decomposes as `(nsec - 1) * stride + patch`. -/
theorem nsec_mul (n p s : ℕ) (hs : 0 < s) :
    (nsec n p s - 1) * s + p = paddedLen n p s := by
  unfold nsec
  have hd := dvd_paddedLen_sub n p s hs
  have hp := le_paddedLen n p s
  have hc : (paddedLen n p s - p) / s * s = paddedLen n p s - p :=
    Nat.div_mul_cancel hd
  simp only [Nat.add_sub_cancel]
  omega

/-- When the stride divides the padded extent it also divides the patch
extent, hence (patch being positive) is at most the patch extent: the
windows leave no gaps. -/
theorem stride_le_patch (n p s : ℕ) (hs : 0 < s) (hp : 0 < p)
    (hdvd : s ∣ paddedLen n p s) : s ≤ p := by
  have h1 := dvd_paddedLen_sub n p s hs
  have h2 := le_paddedLen n p s
  have h3 : s ∣ p := by
    have hv := Nat.dvd_sub' hdvd h1
    rwa [Nat.sub_sub_self h2] at hv
  exact Nat.le_of_dvd hp h3

/-- Every padded position is covered by at least one window when the
stride is at most the patch extent. -/
theorem covSet_nonempty (n p s q : ℕ) (hs : 0 < s) (hsp : s ≤ p)
    (hq : q < paddedLen n p s) : (covSet n p s q).Nonempty := by
  refine ⟨min (q / s) (nsec n p s - 1), ?_⟩
  rw [covSet, Finset.mem_filter, Finset.mem_range]
  have hn1 : 1 ≤ nsec n p s := Nat.le_add_left 1 _
  have hminr := min_le_right (q / s) (nsec n p s - 1)
  have hminl := min_le_left (q / s) (nsec n p s - 1)
  refine ⟨by omega, ?_, ?_⟩
  · calc min (q / s) (nsec n p s - 1) * s ≤ (q / s) * s :=
        Nat.mul_le_mul_right s hminl
    _ ≤ q := Nat.div_mul_le_self q s
  · rcases le_total (q / s) (nsec n p s - 1) with hle | hge
    · rw [min_eq_left hle]
      have hmod := Nat.div_add_mod q s
      have hlt : q % s < s := Nat.mod_lt q hs
      have hcomm : (q / s) * s = s * (q / s) := Nat.mul_comm _ _
      omega
    · rw [min_eq_right hge]
      have hns := nsec_mul n p s hs
      omega

/-- Unpacking membership in a covering-window set. -/
theorem covSet_mem (n p s q w : ℕ) (h : w ∈ covSet n p s q) :
    w * s ≤ q ∧ q < w * s + p ∧ w < nsec n p s := by
  rw [covSet, Finset.mem_filter, Finset.mem_range] at h
  exact ⟨h.2.1, h.2.2, h.1⟩

/-- Interior positions of the padded array read the original value:
cropping inverts the edge padding. -/
theorem clampEdge_shift (n b i : ℕ) (hn : 0 < n) (hi : i < n) :
    clampEdge n b (i + b) = i := by
  unfold clampEdge
  have hsub : i + b - b = i := by omega
  rw [hsub]
  rw [min_eq_right (by omega)]

/-- C1: the patch round-trip.  For every volume and every patch shape and
stride (all positive) such that the stride evenly divides the padded
extent on each axis, extracting patches with `get_patches` and then
reassembling with `load_from_patches` (same stride and the volume's shape)
reconstructs the original volume exactly at every voxel: the padding
computed by the same formula is cropped away, gaps cannot occur, and
overlap averaging combines equal contributions. -/
theorem C1_patch_roundtrip (V : Vol) (pz py px sz sy sx : ℕ)
    (hnz : 0 < V.nz) (hny : 0 < V.ny) (hnx : 0 < V.nx)
    (hpz : 0 < pz) (hpy : 0 < py) (hpx : 0 < px)
    (hsz : 0 < sz) (hsy : 0 < sy) (hsx : 0 < sx)
    (hdz : sz ∣ paddedLen V.nz pz sz)
    (hdy : sy ∣ paddedLen V.ny py sy)
    (hdx : sx ∣ paddedLen V.nx px sx) :
    ∀ i j k : ℕ, i < V.nz → j < V.ny → k < V.nx →
      loadFromPatches V.nz V.ny V.nx pz py px sz sy sx
        (getPatches V pz py px sz sy sx) i j k = V.val i j k := by
  intro i j k hi hj hk
  have hqz : i + padBefore V.nz pz sz < paddedLen V.nz pz sz := by
    unfold padBefore paddedLen
    omega
  have hqy : j + padBefore V.ny py sy < paddedLen V.ny py sy := by
    unfold padBefore paddedLen
    omega
  have hqx : k + padBefore V.nx px sx < paddedLen V.nx px sx := by
    unfold padBefore paddedLen
    omega
  have hspz := stride_le_patch V.nz pz sz hsz hpz hdz
  have hspy := stride_le_patch V.ny py sy hsy hpy hdy
  have hspx := stride_le_patch V.nx px sx hsx hpx hdx
  have hAne := covSet_nonempty V.nz pz sz (i + padBefore V.nz pz sz) hsz hspz hqz
  have hBne := covSet_nonempty V.ny py sy (j + padBefore V.ny py sy) hsy hspy hqy
  have hCne := covSet_nonempty V.nx px sx (k + padBefore V.nx px sx) hsx hspx hqx
  simp only [loadFromPatches, assembleFromPatches]
  have hval : ∀ wz ∈ covSet V.nz pz sz (i + padBefore V.nz pz sz),
      ∀ wy ∈ covSet V.ny py sy (j + padBefore V.ny py sy),
      ∀ wx ∈ covSet V.nx px sx (k + padBefore V.nx px sx),
      getPatches V pz py px sz sy sx wz wy wx
          (i + padBefore V.nz pz sz - wz * sz)
          (j + padBefore V.ny py sy - wy * sy)
          (k + padBefore V.nx px sx - wx * sx) =
        paddedVal V pz py px sz sy sx (i + padBefore V.nz pz sz)
          (j + padBefore V.ny py sy) (k + padBefore V.nx px sx) := by
    intro wz hwz wy hwy wx hwx
    obtain ⟨h1z, _, _⟩ := covSet_mem _ _ _ _ _ hwz
    obtain ⟨h1y, _, _⟩ := covSet_mem _ _ _ _ _ hwy
    obtain ⟨h1x, _, _⟩ := covSet_mem _ _ _ _ _ hwx
    unfold getPatches
    rw [Nat.add_sub_cancel' h1z, Nat.add_sub_cancel' h1y,
      Nat.add_sub_cancel' h1x]
  rw [Finset.sum_congr rfl (fun wz hwz => Finset.sum_congr rfl
    (fun wy hwy => Finset.sum_congr rfl
      (fun wx hwx => hval wz hwz wy hwy wx hwx)))]
  rw [Finset.sum_const, Finset.sum_const, Finset.sum_const]
  rw [smul_smul, smul_smul, nsmul_eq_mul]
  have hA : 0 < (covSet V.nz pz sz (i + padBefore V.nz pz sz)).card :=
    Finset.card_pos.mpr hAne
  have hB : 0 < (covSet V.ny py sy (j + padBefore V.ny py sy)).card :=
    Finset.card_pos.mpr hBne
  have hC : 0 < (covSet V.nx px sx (k + padBefore V.nx px sx)).card :=
    Finset.card_pos.mpr hCne
  have hNpos : 0 < (covSet V.nz pz sz (i + padBefore V.nz pz sz)).card *
      (covSet V.ny py sy (j + padBefore V.ny py sy)).card *
      (covSet V.nx px sx (k + padBefore V.nx px sx)).card := by positivity
  have hNne : (((covSet V.nz pz sz (i + padBefore V.nz pz sz)).card *
      (covSet V.ny py sy (j + padBefore V.ny py sy)).card *
      (covSet V.nx px sx (k + padBefore V.nx px sx)).card : ℕ) : ℚ) ≠ 0 :=
    Nat.cast_ne_zero.mpr hNpos.ne'
  rw [mul_div_cancel_left₀ _ hNne]
  unfold paddedVal
  rw [clampEdge_shift _ _ i hnz hi, clampEdge_shift _ _ j hny hj,
    clampEdge_shift _ _ k hnx hk]

/-- A one-voxel volume used as a concrete witness input. -/
def c1Vol : Vol := ⟨1, 1, 1, fun i j k => (i : ℚ) + 2 * j + 3 * k⟩

/-- C1 witness: unit volume, unit patch shape, unit stride. -/
theorem C1_patch_roundtrip_witness :
    (0 < c1Vol.nz ∧ 0 < c1Vol.ny ∧ 0 < c1Vol.nx ∧ (0 : ℕ) < 1) ∧
    ((1 : ℕ) ∣ paddedLen c1Vol.nz 1 1 ∧ (1 : ℕ) ∣ paddedLen c1Vol.ny 1 1 ∧
      (1 : ℕ) ∣ paddedLen c1Vol.nx 1 1) ∧
    (∀ i j k : ℕ, i < c1Vol.nz → j < c1Vol.ny → k < c1Vol.nx →
      loadFromPatches c1Vol.nz c1Vol.ny c1Vol.nx 1 1 1 1 1 1
        (getPatches c1Vol 1 1 1 1 1 1) i j k = c1Vol.val i j k) :=
  ⟨⟨by decide, by decide, by decide, by decide⟩,
   ⟨one_dvd _, one_dvd _, one_dvd _⟩,
   C1_patch_roundtrip c1Vol 1 1 1 1 1 1 (by decide) (by decide) (by decide)
     (by decide) (by decide) (by decide) (by decide) (by decide) (by decide)
     (one_dvd _) (one_dvd _) (one_dvd _)⟩

/-- A concrete 10-slice buffer of 8 times 8 slices for the resize
scenario witness. -/
def c4Data : List Slice :=
  List.replicate 10 (List.replicate 8 (List.replicate 8 (0 : ℚ)))

/-- A concrete worker producing 5-slice outputs (filling its view). -/
def c4Worker : List Slice → List Slice :=
  fun _ => List.replicate 5 (List.replicate 8 (List.replicate 8 (0 : ℚ)))

/-- C4 witness at the concrete store and worker. -/
theorem C4_resize_scenario_witness :
    (c4Data.length = 10 ∧ sliceShape c4Data = (8, 8) ∧
      (c4Worker (c4Data.take 4)).length = 5 ∧
      (c4Worker ((c4Data.take 10).drop 4)).length = 5) ∧
    (initRebuildRanges
        (c4Store c4Data ⟨0, 0, 0⟩ ⟨0, 0, 0⟩ ⟨1, 1, 1⟩ ⟨1, 1, 1⟩ [] [])
        (some (5, 8, 8)) = [(0, 5), (5, 10)] ∧
    (∀ r, r < 10 →
      ∃ pr ∈ initRebuildRanges
          (c4Store c4Data ⟨0, 0, 0⟩ ⟨0, 0, 0⟩ ⟨1, 1, 1⟩ ⟨1, 1, 1⟩ [] [])
          (some (5, 8, 8)), pr.1 ≤ r ∧ r < pr.2) ∧
    (∀ pr ∈ initRebuildRanges
        (c4Store c4Data ⟨0, 0, 0⟩ ⟨0, 0, 0⟩ ⟨1, 1, 1⟩ ⟨1, 1, 1⟩ [] [])
        (some (5, 8, 8)),
      ∀ qr ∈ initRebuildRanges
          (c4Store c4Data ⟨0, 0, 0⟩ ⟨0, 0, 0⟩ ⟨1, 1, 1⟩ ⟨1, 1, 1⟩ [] [])
          (some (5, 8, 8)),
        pr ≠ qr → pr.2 ≤ qr.1 ∨ qr.2 ≤ pr.1) ∧
    (rebuild (c4Store c4Data ⟨0, 0, 0⟩ ⟨0, 0, 0⟩ ⟨1, 1, 1⟩ ⟨1, 1, 1⟩ [] [])
        c4Worker ⟨some (5, 8, 8), none⟩).bounds = [0, 5, 10] ∧
    (rebuild (c4Store c4Data ⟨0, 0, 0⟩ ⟨0, 0, 0⟩ ⟨1, 1, 1⟩ ⟨1, 1, 1⟩ [] [])
        c4Worker ⟨some (5, 8, 8), none⟩).spacing =
      [vdiv (vmul ⟨1, 1, 1⟩ ⟨4, 8, 8⟩) ⟨5, 8, 8⟩,
       vdiv (vmul ⟨1, 1, 1⟩ ⟨6, 8, 8⟩) ⟨5, 8, 8⟩]) :=
  ⟨⟨rfl, rfl, rfl, rfl⟩,
   C4_resize_scenario c4Data ⟨0, 0, 0⟩ ⟨0, 0, 0⟩ ⟨1, 1, 1⟩ ⟨1, 1, 1⟩ [] []
     c4Worker rfl rfl rfl rfl⟩
